import Mathlib

/-!
Verification of the ACME challenge server and certificate-issuance
orchestrator in `main.py` (oci_lb_certbot).

Strings are modelled as `List Char` (the character list of a Python `str`);
filesystem paths are modelled as canonical absolute segment lists
(`List (List Char)`), with lexical resolution of `..` segments mirroring
what the OS does during `stat`.
-/

namespace OciLbCertbot

abbrev Seg : Type := List Char

abbrev AbsPath : Type := List Seg

/-- Python substring test `pat in s` over character lists. -/
def isSubstr (pat : List Char) : List Char → Bool
  | [] => pat.isEmpty
  | c :: rest => pat.isPrefixOf (c :: rest) || isSubstr pat rest

/-- Split a character list on the slash character (the path separator). -/
def splitSlashAux : List Char → List Char → List (List Char)
  | [], acc => [acc.reverse]
  | c :: rest, acc =>
      if c = '/' then acc.reverse :: splitSlashAux rest []
      else splitSlashAux rest (c :: acc)

def splitSlash (s : List Char) : List (List Char) :=
  splitSlashAux s []

/-- Segments of a request path after Python's `self.path.lstrip(slash)` and
the OS splitting the relative path on slashes; empty segments and `.`
segments are no-ops for path resolution and are dropped. -/
def segsOfPath (path : List Char) : List Seg :=
  (splitSlash (path.dropWhile (fun c => c = '/'))).filter
    (fun s => !s.isEmpty && !(s == ['.']))

/-- One lexical step of OS path resolution: `..` pops a segment, anything
else descends. -/
def stepSeg (cur : AbsPath) (s : Seg) : AbsPath :=
  if s == ['.', '.'] then cur.dropLast else cur ++ [s]

/-- Lexical resolution of relative segments against a base directory. -/
def resolveSegs (cur : AbsPath) (segs : List Seg) : AbsPath :=
  segs.foldl stepSeg cur

/-- Filesystem model: which absolute paths are directories, and the
contents of each regular file. -/
structure FS where
  isDir : AbsPath → Bool
  file : AbsPath → Option (List Char)

/-- Model of the OS `stat` walk performed by Python's `Path.exists()`:
every intermediate position must be an existing directory, and the final
position must exist (as a file or a directory). -/
def statOk (fs : FS) : AbsPath → List Seg → Bool
  | cur, [] => fs.isDir cur || (fs.file cur).isSome
  | cur, s :: rest => fs.isDir cur && statOk fs (stepSeg cur s) rest

/-- The four deny substrings of `ACMEHandler.do_GET`. -/
def denyPatterns : List (List Char) :=
  ["/certs".data, "/letsencrypt".data, ".pem".data, "/.git".data]

/-- The handler's first check: does any deny pattern occur in the path? -/
def denyAny (path : List Char) : Bool :=
  denyPatterns.any (fun p => isSubstr p path)

/-- The canonical ACME challenge route checked with `startswith`. -/
def challengeRoute : List Char :=
  "/.well-known/acme-challenge/".data

/-- Outcome of one `do_GET` dispatch, one constructor per branch of the
handler. -/
inductive Response where
  | denied : Response
  | probeOK : Response
  | fileOK : List Char → Response
  | notFound : Response
deriving DecidableEq, Repr

/-- HTTP status code sent for each handler outcome. -/
def statusOf : Response → Nat
  | .denied => 404
  | .probeOK => 200
  | .fileOK _ => 200
  | .notFound => 404

/-- Shallow embedding of `ACMEHandler.do_GET`: deny check first, then the
load-balancer allow-set check, then the challenge route.  The file served
for a challenge hit is looked up at `Path(dot) / path.lstrip(slash)`
relative to the process working directory `cwd`, exactly as the source
does (it does not use the configured webroot, and it performs no
containment check on the resolved path). -/
def do_GET (fs : FS) (cwd : AbsPath) (allowed_lb_ips : List (List Char))
    (client_ip : List Char) (path : List Char) : Response :=
  if denyAny path then
    .denied
  else if allowed_lb_ips.contains client_ip then
    .probeOK
  else if challengeRoute.isPrefixOf path then
    let segs := segsOfPath path
    if statOk fs cwd segs then
      .fileOK ((fs.file (resolveSegs cwd segs)).getD [])
    else
      .notFound
  else
    .notFound

/-- A filesystem with no directories and no files. -/
def emptyFS : FS :=
  { isDir := fun _ => false, file := fun _ => none }

/-- A request path that names a challenge token whose name contains the
deny substring `.pem`. -/
def tokenPemPath : List Char :=
  "/.well-known/acme-challenge/tok.pem".data

/-- Filesystem in which the challenge tree exists under the working
directory and holds the token file `tok.pem`. -/
def fsTokenPem : FS :=
  { isDir := fun p =>
      p == ([] : AbsPath) ||
      p == [".well-known".data] ||
      p == [".well-known".data, "acme-challenge".data],
    file := fun p =>
      if p == [".well-known".data, "acme-challenge".data, "tok.pem".data] then
        some "abc".data
      else none }

/-- The working directory of the server process in the traversal and
webroot scenarios. -/
def cwdHome : AbsPath := ["home".data, "u".data]

/-- A request path that starts with the challenge route and then climbs
out of the serving root with three `..` segments. -/
def traversalPath : List Char :=
  "/.well-known/acme-challenge/../../../secret".data

/-- Filesystem for the traversal scenario: the challenge tree exists under
the working directory `/home/u`, and a private file `/home/secret` lives
outside the serving root. -/
def fsTraversal : FS :=
  { isDir := fun p =>
      p == ([] : AbsPath) ||
      p == ["home".data] ||
      p == ["home".data, "u".data] ||
      p == ["home".data, "u".data, ".well-known".data] ||
      p == ["home".data, "u".data, ".well-known".data, "acme-challenge".data],
    file := fun p =>
      if p == ["home".data, "secret".data] then some "topsecret".data
      else none }

/-- Filesystem for the webroot scenario: the webroot `/srv/www` holds the
token file `tok`, the process working directory is `/home/u`, and both
challenge trees exist (the source ensures one under the webroot in
`create_cert` and one under the working directory in
`run_server_in_thread`). -/
def fsWebroot : FS :=
  { isDir := fun p =>
      p == ([] : AbsPath) ||
      p == ["home".data] ||
      p == ["home".data, "u".data] ||
      p == ["home".data, "u".data, ".well-known".data] ||
      p == ["home".data, "u".data, ".well-known".data, "acme-challenge".data] ||
      p == ["srv".data] ||
      p == ["srv".data, "www".data] ||
      p == ["srv".data, "www".data, ".well-known".data] ||
      p == ["srv".data, "www".data, ".well-known".data, "acme-challenge".data],
    file := fun p =>
      if p == ["srv".data, "www".data, ".well-known".data,
          "acme-challenge".data, "tok".data] then
        some "abc".data
      else none }

/-- Model of `_is_within(child, parent)` on canonical absolute paths:
`parent_res == child_res or parent_res in child_res.parents` is exactly
segment-list prefixhood. -/
def isWithinB (child par : AbsPath) : Bool :=
  par.isPrefixOf child

/-- Model of the path-resolution portion of `ensure_output_dir_safe`
(lines 103-112 of the source): both paths canonical, and the requested
output directory is replaced by `parent(webroot)/certs` exactly when it
lies within the webroot and `allow_in_webroot` is false.  The later
`mkdir`/permission-fallback steps are filesystem side effects outside
this model. -/
def ensure_output_dir_safe (webroot_p out_p : AbsPath)
    (allow_in_webroot : Bool) : AbsPath :=
  if isWithinB out_p webroot_p && !allow_in_webroot then
    webroot_p.dropLast ++ ["certs".data]
  else
    out_p

/-- The output directory actually used by `create_cert`: the source calls
`ensure_output_dir_safe(webroot=webroot, output_dir=output_dir)` with no
`allow_in_webroot` argument, so the default `allow_in_webroot = True`
applies. -/
def create_cert_output (webroot out : AbsPath) : AbsPath :=
  ensure_output_dir_safe webroot out true

/-- Whether a probe attempt produced an HTTP response (of any status). -/
def isOkE : Except (List Char) Nat → Bool
  | .ok _ => true
  | .error _ => false

/-- Number of probe attempts the loop `while time < deadline` performs
when each failed attempt sleeps `interval` seconds: attempt `i` starts at
time `i * interval`, so the count is the ceiling of
`timeout / interval`. -/
def numAttempts (timeout interval : Nat) : Nat :=
  (timeout + interval - 1) / interval

/-- The polling loop of `wait_for_server`: each attempt either receives a
response (any status, `Except.ok`) and the loop returns `True`, or raises
(`Except.error`, absorbed by the bare `except` clause) and the loop
retries until the deadline. -/
def probeLoop (probe : Nat → Except (List Char) Nat) : Nat → Nat → Bool
  | _, 0 => false
  | attempt, fuel + 1 =>
      match probe attempt with
      | .ok _ => true
      | .error _ => probeLoop probe (attempt + 1) fuel

/-- Shallow embedding of `wait_for_server`: a total Boolean function — a
timeout is reported as the return value `False`, never as an exception,
because every probe failure is caught inside the loop. -/
def wait_for_server (probe : Nat → Except (List Char) Nat)
    (timeout interval : Nat) : Bool :=
  probeLoop probe 0 (numAttempts timeout interval)

/-- A probe that fails twice with a connection error and then receives a
404 response. -/
def probeFlaky : Nat → Except (List Char) Nat :=
  fun i => if i < 2 then .error "connection refused".data else .ok 404

/-- A directory listing: file names paired with their permission modes. -/
abbrev FileModes : Type := List (List Char × Nat)

/-- Does a file of the given name exist in the listing? -/
def existsF (name : List Char) (fs : FileModes) : Bool :=
  fs.any (fun e => e.1 == name)

/-- `os.chmod` on one file of the listing. -/
def chmodF (name : List Char) (mode : Nat) (fs : FileModes) : FileModes :=
  fs.map (fun e => if e.1 == name then (e.1, mode) else e)

/-- Current mode of a named file, if present. -/
def lookupF (name : List Char) (fs : FileModes) : Option Nat :=
  (fs.find? (fun e => e.1 == name)).map (fun e => e.2)

/-- The artifact names iterated by `_secure_cert_files`, in source
order. -/
def certFileNames : List (List Char) :=
  ["privkey.pem".data, "fullchain.pem".data, "cert.pem".data,
   "chain.pem".data]

/-- Shallow embedding of `_secure_cert_files` (success path of each
best-effort `chmod`): the per-domain directory gets mode `0o700`, and
each artifact file that exists gets `0o600` for `privkey.pem` and
`0o644` otherwise.  Returns the directory mode and the updated
listing. -/
def secure_cert_files (files : FileModes) : Nat × FileModes :=
  (0o700,
   certFileNames.foldl
     (fun fs fname =>
       if existsF fname fs then
         chmodF fname (if fname == "privkey.pem".data then 0o600 else 0o644) fs
       else fs)
     files)

/-- Mode `a` grants a subset of the permission bits of mode `b`, and not
all of them. -/
def strictlyMoreRestrictive (a b : Nat) : Prop :=
  a &&& b = a ∧ a ≠ b

/-- A directory holding all four artifacts, initially world-writable. -/
def allArtifacts : FileModes :=
  [("privkey.pem".data, 0o777), ("fullchain.pem".data, 0o777),
   ("cert.pem".data, 0o777), ("chain.pem".data, 0o777)]

/-- Python `newline.join` over character lists. -/
def joinNL : List (List Char) → List Char
  | [] => []
  | [e] => e
  | e :: rest => e ++ '\n' :: joinNL rest

/-- The fixed ignore-list block appended by `create_cert`, parameterised
by the resolved output directory rendered as a string. -/
def gi_entries (out : List Char) : List (List Char) :=
  ["# certbot / generated certs".data, out ++ "/".data, "*.pem".data,
   "letsencrypt/".data, "letsencrypt-work/".data, "letsencrypt-logs/".data]

/-- Shallow embedding of the ignore-list update in `create_cert`: collect
the entries that do not already occur as substrings of the current
contents, and if any remain, append them joined by newlines (with a
leading and a trailing newline); otherwise leave the file untouched. -/
def update_gitignore (entries : List (List Char)) (existing : List Char) :
    List Char :=
  let to_append := entries.filter (fun e => !(isSubstr e existing))
  if to_append.isEmpty then existing
  else existing ++ '\n' :: (joinNL to_append ++ ['\n'])

/-- Outcomes of the effectful steps of one `create_cert` run, in source
order.  Errors are carried as message strings.  `resolveOut` is the
`ensure_output_dir_safe` call (line 241), `mkWorkDirs` the creation of
the `letsencrypt` config/work/logs subdirectories (lines 245-247); both
run before the `try` block.  `runIssuer` is the `subprocess.run`
invocation with `check=True`; `copyArtifacts` returns whether any
artifact file was copied; `writeManifest` and `harden` run only when
something was copied; `updateIgnore` is the `.gitignore` update.  The
readiness wait is absorbed internally by `wait_for_server` and cannot
fail. -/
structure CertRunEnv where
  resolveOut : Except (List Char) Unit
  mkWorkDirs : Except (List Char) Unit
  runIssuer : Except (List Char) Unit
  copyArtifacts : Except (List Char) Bool
  writeManifest : Except (List Char) Unit
  harden : Except (List Char) Unit
  updateIgnore : Except (List Char) Unit

/-- The body of the `try` block of `create_cert` (lines 255-304). -/
def cert_try_body (env : CertRunEnv) : Except (List Char) Unit := do
  env.runIssuer
  let copied ← env.copyArtifacts
  if copied then
    env.writeManifest
    env.harden
  env.updateIgnore

/-- Result of one orchestrator run: whether the `finally` block
(`server.shutdown(); server.server_close(); thread.join(timeout=1)`) was
executed, and the value or error the run reports. -/
structure RunResult where
  serverStopped : Bool
  outcome : Except (List Char) Unit
deriving Repr

/-- Control-flow skeleton of `create_cert` after the Challenge Server has
been started (line 222): output-location resolution and
working-directory creation run before the `try` statement, so an error
there propagates without reaching the `finally` block; every step from
the issuer invocation onward runs inside `try`, so the `finally` block
(server teardown) executes and the error is re-raised afterwards. -/
def create_cert_run (env : CertRunEnv) : RunResult :=
  match env.resolveOut with
  | .error e => ⟨false, .error e⟩
  | .ok _ =>
    match env.mkWorkDirs with
    | .error e => ⟨false, .error e⟩
    | .ok _ => ⟨true, cert_try_body env⟩

/-- A run in which resolving the output location fails (for example
`mkdir` raising a non-permission `OSError`) and every later step would
have succeeded. -/
def envResolveFails : CertRunEnv :=
  { resolveOut := .error "mkdir failed".data
    mkWorkDirs := .ok ()
    runIssuer := .ok ()
    copyArtifacts := .ok true
    writeManifest := .ok ()
    harden := .ok ()
    updateIgnore := .ok () }

/-- A run in which the external issuer exits non-zero
(`subprocess.CalledProcessError`) after all preparation succeeded. -/
def envIssuerFails : CertRunEnv :=
  { resolveOut := .ok ()
    mkWorkDirs := .ok ()
    runIssuer := .error "certbot exited 1".data
    copyArtifacts := .ok true
    writeManifest := .ok ()
    harden := .ok ()
    updateIgnore := .ok () }

/-! ## Theorems -/

/-- Claim C2: whenever the request path contains a deny substring, the
handler answers `Denied` with status 404 for every client address,
including addresses in the load-balancer allow-set; it never answers with
the 200 health-probe response. -/
theorem deny_precedes_allow (fs : FS) (cwd : AbsPath)
    (allowed_lb_ips : List (List Char)) (client_ip path : List Char)
    (h : denyAny path = true) :
    do_GET fs cwd allowed_lb_ips client_ip path = Response.denied ∧
      statusOf (do_GET fs cwd allowed_lb_ips client_ip path) = 404 := by
  simp [do_GET, h, statusOf]

/-- Witness for C2 at a concrete denylisted path requested from an
allow-listed client address. -/
theorem deny_precedes_allow_witness :
    denyAny "/certs/privkey.pem".data = true ∧
      (do_GET emptyFS [] ["10.0.0.1".data] "10.0.0.1".data
          "/certs/privkey.pem".data = Response.denied ∧
        statusOf (do_GET emptyFS [] ["10.0.0.1".data] "10.0.0.1".data
          "/certs/privkey.pem".data) = 404) :=
  ⟨by decide,
   deny_precedes_allow emptyFS [] ["10.0.0.1".data] "10.0.0.1".data
     "/certs/privkey.pem".data (by decide)⟩

/-- Claim C10: the deny check is plain substring matching anywhere in the
path and runs before the challenge branch, so a challenge path whose token
name contains a deny substring is answered `Denied` (404) even when the
token file exists on disk under the serving root. -/
theorem deny_shadows_existing_challenge (fs : FS) (cwd : AbsPath)
    (allowed_lb_ips : List (List Char)) (client_ip path : List Char)
    (hroute : challengeRoute.isPrefixOf path = true)
    (hfile : statOk fs cwd (segsOfPath path) = true)
    (hdeny : denyAny path = true) :
    do_GET fs cwd allowed_lb_ips client_ip path = Response.denied := by
  simp [do_GET, hdeny]

/-- Witness for C10: token `tok.pem` exists under the challenge tree, yet
the request is denied. -/
theorem deny_shadows_existing_challenge_witness :
    challengeRoute.isPrefixOf tokenPemPath = true ∧
      statOk fsTokenPem [] (segsOfPath tokenPemPath) = true ∧
      denyAny tokenPemPath = true ∧
      do_GET fsTokenPem [] [] "1.2.3.4".data tokenPemPath = Response.denied :=
  ⟨by decide, by decide, by decide,
   deny_shadows_existing_challenge fsTokenPem [] [] "1.2.3.4".data
     tokenPemPath (by decide) (by decide) (by decide)⟩

/-- Claim C3 (failing-input evaluation): the handler performs no
containment check on the resolved challenge path, so a request whose `..`
segments resolve outside the serving root is answered 200 with the bytes
of the out-of-root file, not 404 as the specification requires.  The last
conjunct records that the resolved path indeed escapes the root. -/
theorem challenge_escape_served :
    do_GET fsTraversal cwdHome [] "1.2.3.4".data traversalPath =
        Response.fileOK "topsecret".data ∧
      statusOf (do_GET fsTraversal cwdHome [] "1.2.3.4".data traversalPath)
        = 200 ∧
      cwdHome.isPrefixOf (resolveSegs cwdHome (segsOfPath traversalPath))
        = false := by
  decide

/-- Claim C4 (failing-input evaluation): the handler serves challenge
files relative to the process working directory, not the configured
webroot.  With webroot `/srv/www`, working directory `/home/u`, and token
`tok` present under the webroot, the GET of the challenge path returns
404 instead of the token's bytes. -/
theorem webroot_token_not_served :
    fsWebroot.file ["srv".data, "www".data, ".well-known".data,
        "acme-challenge".data, "tok".data] = some "abc".data ∧
      do_GET fsWebroot cwdHome [] "1.2.3.4".data
          "/.well-known/acme-challenge/tok".data = Response.notFound ∧
      statusOf (do_GET fsWebroot cwdHome [] "1.2.3.4".data
          "/.well-known/acme-challenge/tok".data) = 404 := by
  decide

/-- Claim C5 counterexample: with the defaults (webroot `/srv/www`,
requested output `/srv/www/certs`, i.e. `./certs` under the webroot) the
orchestrator's call keeps the output directory nested inside the webroot
even though the caller did not override anything. -/
theorem output_inside_webroot_by_default :
    create_cert_output ["srv".data, "www".data]
        ["srv".data, "www".data, "certs".data] =
      ["srv".data, "www".data, "certs".data] ∧
      isWithinB ["srv".data, "www".data, "certs".data]
        ["srv".data, "www".data] = true := by
  decide

/-- Claim C5 (amended): the orchestrator's call to the placement policy
uses the default `allow_in_webroot = True`, so it never relocates the
requested output directory — in-webroot placement is permitted by
default, and outside-webroot placement happens only when a caller passes
`allow_in_webroot = False`. -/
theorem create_cert_output_is_requested (webroot out : AbsPath) :
    create_cert_output webroot out = out := by
  simp [create_cert_output, ensure_output_dir_safe]

/-- Claim C6 counterexample: with webroot the filesystem root, the
substituted directory `parent(root)/certs = /certs` is a strict
descendant of the webroot, not a sibling. -/
theorem sibling_substitution_root_escape :
    ensure_output_dir_safe [] ["www".data] false = ["certs".data] ∧
      isWithinB ["certs".data] [] = true ∧
      (["certs".data] : AbsPath) ≠ [] := by
  decide

/-- Claim C6 (amended): for every non-root webroot `w` and requested
output within `w`, the resolver called with `allow_in_webroot = False`
returns `parent(w)/certs`, and that result is never a strict descendant
of `w`: if it lies within `w` at all, it is `w` itself (which happens
exactly when `w`'s own last segment is `certs`). -/
theorem sibling_substitution (w o : AbsPath) (hw : w ≠ [])
    (hin : isWithinB o w = true) :
    ensure_output_dir_safe w o false = w.dropLast ++ ["certs".data] ∧
      (isWithinB (w.dropLast ++ ["certs".data]) w = true →
        w.dropLast ++ ["certs".data] = w) := by
  constructor
  · simp [ensure_output_dir_safe, hin]
  · intro hpre
    have h1 : w <+: w.dropLast ++ ["certs".data] :=
      List.isPrefixOf_iff_prefix.mp hpre
    have hlen : w.length = (w.dropLast ++ ["certs".data]).length := by
      have hpos : 0 < w.length := List.length_pos.mpr hw
      simp [List.length_dropLast]
      omega
    exact (List.IsPrefix.eq_of_length h1 hlen).symm

/-- Witness for the amended C6 at webroot `/srv/www` and requested output
`/srv/www/x`. -/
theorem sibling_substitution_witness :
    ensure_output_dir_safe ["srv".data, "www".data]
        ["srv".data, "www".data, "x".data] false =
      ["srv".data, "certs".data] ∧
      (isWithinB ["srv".data, "certs".data] ["srv".data, "www".data] = true →
        (["srv".data, "certs".data] : AbsPath) = ["srv".data, "www".data]) :=
  sibling_substitution ["srv".data, "www".data]
    ["srv".data, "www".data, "x".data] (by decide) (by decide)

theorem probeLoop_true_iff (probe : Nat → Except (List Char) Nat) :
    ∀ fuel a, probeLoop probe a fuel = true ↔
      ∃ i, i < fuel ∧ isOkE (probe (a + i)) = true := by
  intro fuel
  induction fuel with
  | zero => intro a; simp [probeLoop]
  | succ f ih =>
    intro a
    cases h : probe a with
    | ok v =>
      simp only [probeLoop, h]
      constructor
      · intro _
        exact ⟨0, by omega, by simp [h, isOkE]⟩
      · intro _
        trivial
    | error e =>
      simp only [probeLoop, h]
      rw [ih (a + 1)]
      constructor
      · rintro ⟨i, hi, hok⟩
        refine ⟨i + 1, by omega, ?_⟩
        have hshift : a + (i + 1) = a + 1 + i := by omega
        rwa [hshift]
      · rintro ⟨i, hi, hok⟩
        cases i with
        | zero =>
          rw [Nat.add_zero, h] at hok
          simp [isOkE] at hok
        | succ j =>
          refine ⟨j, by omega, ?_⟩
          have hshift : a + 1 + j = a + (j + 1) := by omega
          rwa [hshift]

/-- Claim C7: `wait_for_server` returns `True` exactly when some probe
attempt starting before the deadline (attempt `i` starts at time
`i * interval < timeout`) receives an HTTP response of any status; when
no attempt receives a response it returns `False`, and since its result
is a total Boolean, a timeout is never surfaced as an exception. -/
theorem wait_for_server_ready (probe : Nat → Except (List Char) Nat)
    (timeout interval : Nat) (hiv : 0 < interval) :
    wait_for_server probe timeout interval = true ↔
      ∃ i, i * interval < timeout ∧ isOkE (probe i) = true := by
  have key : ∀ i, i < numAttempts timeout interval ↔ i * interval < timeout := by
    intro i
    unfold numAttempts
    rw [Nat.lt_iff_add_one_le, Nat.le_div_iff_mul_le hiv]
    have hmul : (i + 1) * interval = i * interval + interval := by ring
    rw [hmul]
    generalize i * interval = x
    omega
  unfold wait_for_server
  rw [probeLoop_true_iff]
  constructor
  · rintro ⟨i, hi, hok⟩
    rw [Nat.zero_add] at hok
    exact ⟨i, (key i).mp hi, hok⟩
  · rintro ⟨i, hi, hok⟩
    refine ⟨i, (key i).mpr hi, ?_⟩
    rwa [Nat.zero_add]

/-- Witness for C7 with timeout 10 and interval 2: the 404 received on
the third attempt counts as reachable. -/
theorem wait_for_server_ready_witness :
    wait_for_server probeFlaky 10 2 = true ↔
      ∃ i, i * 2 < 10 ∧ isOkE (probeFlaky i) = true :=
  wait_for_server_ready probeFlaky 10 2 (by decide)

theorem fst_chmod_entry (e : List Char × Nat) (m : List Char) (mo : Nat) :
    (if e.1 == m then (e.1, mo) else e).1 = e.1 := by
  cases h : e.1 == m <;> simp [h]

theorem existsF_cons (n : List Char) (e : List Char × Nat) (t : FileModes) :
    existsF n (e :: t) = ((e.1 == n) || existsF n t) := rfl

theorem chmodF_cons (m : List Char) (mo : Nat) (e : List Char × Nat)
    (t : FileModes) :
    chmodF m mo (e :: t) =
      (if e.1 == m then (e.1, mo) else e) :: chmodF m mo t := rfl

theorem lookupF_cons (n : List Char) (e : List Char × Nat) (t : FileModes) :
    lookupF n (e :: t) = if e.1 == n then some e.2 else lookupF n t := by
  cases h : e.1 == n <;> simp [lookupF, List.find?_cons, h]

theorem existsF_chmodF (n m : List Char) (mo : Nat) (fs : FileModes) :
    existsF n (chmodF m mo fs) = existsF n fs := by
  induction fs with
  | nil => rfl
  | cons e t ih =>
    rw [chmodF_cons, existsF_cons, existsF_cons, ih, fst_chmod_entry]

theorem lookupF_chmodF_self (n : List Char) (mo : Nat) (fs : FileModes)
    (h : existsF n fs = true) : lookupF n (chmodF n mo fs) = some mo := by
  induction fs with
  | nil => simp [existsF] at h
  | cons e t ih =>
    rw [existsF_cons] at h
    rw [chmodF_cons]
    cases he : e.1 == n with
    | true => simp [lookupF_cons, he]
    | false =>
      rw [he] at h
      simp only [Bool.false_or] at h
      simp [lookupF_cons, he, ih h]

theorem lookupF_chmodF_ne (n m : List Char) (mo : Nat) (fs : FileModes)
    (h : n ≠ m) : lookupF n (chmodF m mo fs) = lookupF n fs := by
  induction fs with
  | nil => rfl
  | cons e t ih =>
    rw [chmodF_cons]
    cases hm : e.1 == m with
    | true =>
      have hem : e.1 = m := by simpa using hm
      have hen : (e.1 == n) = false := by
        simp [hem]
        exact fun hc => h hc.symm
      simp [lookupF_cons, hm, hen, ih]
    | false =>
      simp [lookupF_cons, hm, ih]

/-- Claim C8: after a run in which all four artifact files exist, the
hardening step assigns `privkey.pem` mode `0o600`, the other three
artifacts mode `0o644`, and the containing directory mode `0o700`; the
private key's mode is strictly more restrictive than `0o644`. -/
theorem secure_cert_files_modes (files : FileModes)
    (h1 : existsF "privkey.pem".data files = true)
    (h2 : existsF "fullchain.pem".data files = true)
    (h3 : existsF "cert.pem".data files = true)
    (h4 : existsF "chain.pem".data files = true) :
    (secure_cert_files files).1 = 0o700 ∧
      lookupF "privkey.pem".data (secure_cert_files files).2 = some 0o600 ∧
      lookupF "fullchain.pem".data (secure_cert_files files).2 = some 0o644 ∧
      lookupF "cert.pem".data (secure_cert_files files).2 = some 0o644 ∧
      lookupF "chain.pem".data (secure_cert_files files).2 = some 0o644 ∧
      strictlyMoreRestrictive 0o600 0o644 := by
  have hb1 : ("privkey.pem".data == "privkey.pem".data) = true := by decide
  have hb2 : ("fullchain.pem".data == "privkey.pem".data) = false := by decide
  have hb3 : ("cert.pem".data == "privkey.pem".data) = false := by decide
  have hb4 : ("chain.pem".data == "privkey.pem".data) = false := by decide
  have hres : (secure_cert_files files).2 =
      chmodF "chain.pem".data 0o644
        (chmodF "cert.pem".data 0o644
          (chmodF "fullchain.pem".data 0o644
            (chmodF "privkey.pem".data 0o600 files))) := by
    simp only [secure_cert_files, certFileNames, List.foldl, existsF_chmodF,
      h1, h2, h3, h4, hb1, hb2, hb3, hb4, if_true, if_false, Bool.false_eq_true,
      ite_true, ite_false]
  refine ⟨rfl, ?_, ?_, ?_, ?_, ⟨by decide, by decide⟩⟩
  · rw [hres, lookupF_chmodF_ne _ _ _ _ (by decide),
      lookupF_chmodF_ne _ _ _ _ (by decide),
      lookupF_chmodF_ne _ _ _ _ (by decide),
      lookupF_chmodF_self _ _ _ h1]
  · rw [hres, lookupF_chmodF_ne _ _ _ _ (by decide),
      lookupF_chmodF_ne _ _ _ _ (by decide),
      lookupF_chmodF_self]
    rw [existsF_chmodF]
    exact h2
  · rw [hres, lookupF_chmodF_ne _ _ _ _ (by decide),
      lookupF_chmodF_self]
    rw [existsF_chmodF, existsF_chmodF]
    exact h3
  · rw [hres, lookupF_chmodF_self]
    rw [existsF_chmodF, existsF_chmodF, existsF_chmodF]
    exact h4

/-- Witness for C8 on a concrete directory containing all four artifact
files. -/
theorem secure_cert_files_modes_witness :
    (secure_cert_files allArtifacts).1 = 0o700 ∧
      lookupF "privkey.pem".data (secure_cert_files allArtifacts).2 =
        some 0o600 ∧
      lookupF "fullchain.pem".data (secure_cert_files allArtifacts).2 =
        some 0o644 ∧
      lookupF "cert.pem".data (secure_cert_files allArtifacts).2 =
        some 0o644 ∧
      lookupF "chain.pem".data (secure_cert_files allArtifacts).2 =
        some 0o644 ∧
      strictlyMoreRestrictive 0o600 0o644 :=
  secure_cert_files_modes allArtifacts (by decide) (by decide) (by decide)
    (by decide)

theorem isSubstr_correct (pat s : List Char) :
    isSubstr pat s = true ↔ pat <:+: s := by
  induction s with
  | nil =>
    simp [isSubstr, List.isEmpty_iff, List.infix_nil]
  | cons c rest ih =>
    simp only [isSubstr, Bool.or_eq_true, ih, List.isPrefixOf_iff_prefix]
    exact (List.infix_cons_iff).symm

theorem part_cons_ext {l x : List Char} {c : Char} (h : l <:+: x) :
    l <:+: c :: x := by
  obtain ⟨u, v, huv⟩ := h
  exact ⟨c :: u, v, by simp [huv]⟩

theorem part_append_left_ext {l x : List Char} (s : List Char)
    (h : l <:+: x) : l <:+: s ++ x := by
  obtain ⟨u, v, huv⟩ := h
  exact ⟨s ++ u, v, by simp [huv]⟩

theorem part_append_right_ext {l x : List Char} (t : List Char)
    (h : l <:+: x) : l <:+: x ++ t := by
  obtain ⟨u, v, huv⟩ := h
  exact ⟨u, v ++ t, by simp [← huv]⟩

theorem mem_joinNL_part {e : List Char} :
    ∀ {l : List (List Char)}, e ∈ l → e <:+: joinNL l := by
  intro l
  induction l with
  | nil => intro h; cases h
  | cons a rest ih =>
    intro h
    cases rest with
    | nil =>
      have : e = a := by simpa using h
      subst this
      exact List.infix_refl _
    | cons b t =>
      rcases List.mem_cons.mp h with he | he
      · subst he
        exact ⟨[], '\n' :: joinNL (b :: t), by simp [joinNL]⟩
      · have h1 : e <:+: joinNL (b :: t) := ih he
        have h2 : e <:+: '\n' :: joinNL (b :: t) := part_cons_ext h1
        show e <:+: a ++ '\n' :: joinNL (b :: t)
        exact part_append_left_ext a h2

/-- Every configured entry occurs as a substring of the updated ignore
file, whether it was already present or was just appended. -/
theorem isSubstr_update_gitignore (entries : List (List Char))
    (existing : List Char) (e : List Char) (he : e ∈ entries) :
    isSubstr e (update_gitignore entries existing) = true := by
  rw [isSubstr_correct]
  unfold update_gitignore
  by_cases h : (entries.filter (fun x => !(isSubstr x existing))).isEmpty = true
  · simp only [h, if_true]
    have hnil : entries.filter (fun x => !(isSubstr x existing)) = [] :=
      List.isEmpty_iff.mp h
    have hsub : isSubstr e existing = true := by
      have := List.filter_eq_nil_iff.mp hnil e he
      simpa using this
    exact (isSubstr_correct e existing).mp hsub
  · simp only [h, if_false, Bool.false_eq_true]
    by_cases hsub : isSubstr e existing = true
    · exact part_append_right_ext _ ((isSubstr_correct e existing).mp hsub)
    · have hmem : e ∈ entries.filter (fun x => !(isSubstr x existing)) :=
        List.mem_filter.mpr ⟨he, by simp [hsub]⟩
      have h1 : e <:+: joinNL (entries.filter (fun x => !(isSubstr x existing))) :=
        mem_joinNL_part hmem
      exact part_append_left_ext existing
        (part_cons_ext (part_append_right_ext _ h1))

/-- If every entry already occurs in the file, the update writes
nothing. -/
theorem update_gitignore_of_all_present (entries : List (List Char))
    (s : List Char) (h : ∀ e ∈ entries, isSubstr e s = true) :
    update_gitignore entries s = s := by
  unfold update_gitignore
  have h2 : entries.filter (fun e => !(isSubstr e s)) = [] :=
    List.filter_eq_nil_iff.mpr (fun e he => by simp [h e he])
  simp [h2]

/-- Claim C9: the ignore-list update appends only the entries of the
fixed block not already present in the file, so applying the update a
second time to its own result appends nothing and leaves the file
unchanged, for every output-directory string and every initial file
content. -/
theorem gitignore_update_idempotent (out existing : List Char) :
    update_gitignore (gi_entries out)
        (update_gitignore (gi_entries out) existing) =
      update_gitignore (gi_entries out) existing :=
  update_gitignore_of_all_present _ _
    (fun e he => isSubstr_update_gitignore (gi_entries out) existing e he)

/-- Claim C1 counterexample: when output-location resolution fails after
the Challenge Server has started, the error propagates but the server is
never stopped — the teardown guarantee does not cover the steps that run
before the `try` block. -/
theorem teardown_skipped_on_resolve_error :
    (create_cert_run envResolveFails).serverStopped = false ∧
      (create_cert_run envResolveFails).outcome =
        .error "mkdir failed".data := by
  exact ⟨rfl, rfl⟩

/-- Claim C1 (amended): the teardown guarantee covers every step from the
issuer invocation onward — issuer failure, artifact copying, manifest
writing, hardening and the ignore-list update all sit inside the `try`
block, so whenever output-location resolution and working-directory
creation succeed, the server teardown executes and the run reports
exactly the body's outcome (any error propagates after cleanup).  Errors
in output-location resolution or working-directory creation propagate
without teardown. -/
theorem teardown_after_issuer_steps (env : CertRunEnv)
    (h1 : env.resolveOut = .ok ())
    (h2 : env.mkWorkDirs = .ok ()) :
    (create_cert_run env).serverStopped = true ∧
      (create_cert_run env).outcome = cert_try_body env := by
  unfold create_cert_run
  rw [h1, h2]
  exact ⟨rfl, rfl⟩

/-- Witness for the amended C1: on an issuer failure the server is
stopped and the issuer's error is reported after cleanup. -/
theorem teardown_after_issuer_steps_witness :
    ((create_cert_run envIssuerFails).serverStopped = true ∧
      (create_cert_run envIssuerFails).outcome = cert_try_body envIssuerFails) ∧
      cert_try_body envIssuerFails = .error "certbot exited 1".data :=
  ⟨teardown_after_issuer_steps envIssuerFails rfl rfl, rfl⟩

end OciLbCertbot
